import Mathlib

/-!
Shallow embedding of `xcli/_autocomplete.py`: the `Autocomplete` input
editor (session state, keystroke handlers, read loop), the
`sequence_to_autocomplete` completion provider, and the `Printer` overlay
renderer, together with theorems about their observable behavior.
-/

namespace Xcli

/-- Key codes from the top of the module: `UP = (91, 65)`, `DOWN = (91, 66)`,
`BACKSPACE = chr(127)`, `ESCAPE = chr(27)`, `CTRL_D = chr(4)`. -/
def UP : Nat × Nat := (91, 65)

def DOWN : Nat × Nat := (91, 66)

def BACKSPACE : Char := Char.ofNat 127

def ESCAPE : Char := Char.ofNat 27

def CTRL_D : Char := Char.ofNat 4

/-- Session fields set up by `Autocomplete.__init__`: the typed characters
`self.chars`, the current suggestion list `self.suggestions`, and the
optional selected index `self.selected` (None when nothing is selected). -/
structure AState where
  chars : List Char
  suggestions : List String
  selected : Option Nat
deriving DecidableEq

/-- Configuration fixed for an `Autocomplete` object: the completer function
plus `max_options` (None means no truncation) and `min_chars`. -/
structure Config where
  completer : String → List String
  max_options : Option Nat
  min_chars : Nat

/-- State of a freshly constructed `Autocomplete`: empty buffer, empty
suggestion list, nothing selected. -/
def initState : AState := { chars := [], suggestions := [], selected := none }

/-- Method `choose_selection`: if a suggestion is selected, copy it into
`chars`, clear the selection and the suggestion list. Python indexes
`self.suggestions[self.selected]`; by the selection-bounds invariant the
index is in range on every reachable state, so the total lookup `getD`
coincides with it there. -/
def choose_selection (s : AState) : AState :=
  match s.selected with
  | none => s
  | some i => { chars := (s.suggestions.getD i "").toList, suggestions := [], selected := none }

/-- Method `handle_backspace`: commit the selection, then pop the last
character when the buffer is nonempty (`dropLast` is the identity on an
empty buffer, matching the guarded `pop`). -/
def handle_backspace (s : AState) : AState :=
  let s2 := choose_selection s
  { s2 with chars := s2.chars.dropLast }

/-- Method `handle_char`: commit the selection, then append the typed
character to the buffer. -/
def handle_char (c : Char) (s : AState) : AState :=
  let s2 := choose_selection s
  { s2 with chars := s2.chars ++ [c] }

/-- Method `select_up`: no selection is a no-op, selection at index 0 clears
the selection, any other selection moves up one entry. -/
def select_up (s : AState) : AState :=
  match s.selected with
  | none => s
  | some 0 => { s with selected := none }
  | some (i + 1) => { s with selected := some i }

/-- Method `select_down`. Python guards with
`self.selected >= len(self.suggestions) - 1` over ints, which over Nat is
`len suggestions ≤ selected + 1`; when `suggestions` is empty and
something is selected that comparison reads `selected >= -1`, true, so
the translation likewise returns `s` there, and the separate emptiness
check only matters when nothing is selected — exactly as in the source. -/
def select_down (s : AState) : AState :=
  match s.selected with
  | some i => if s.suggestions.length ≤ i + 1 then s else { s with selected := some (i + 1) }
  | none => if s.suggestions = [] then s else { s with selected := some 0 }

/-- Method `get_suggestions`: query the completer on the buffer text and
truncate to `max_options` entries when that bound is not None. -/
def get_suggestions (cfg : Config) (chars : String) : List String :=
  let options := cfg.completer chars
  match cfg.max_options with
  | some n => options.take n
  | none => options

/-- Method `handle_special_key`: the two characters following ESC (read from
the stream by the caller in this embedding) are dispatched on their codes;
the returned Bool reports whether suggestions must be forced, true exactly
for the Down arrow. -/
def handle_special_key (s : AState) (c2 c3 : Char) : AState × Bool :=
  let sequence := (c2.toNat, c3.toNat)
  if sequence = UP then (select_up s, false)
  else if sequence = DOWN then (select_down s, true)
  else (s, false)

/-- Suggestion refresh step of the read loop: only when nothing is selected,
recompute suggestions if `len(chars) > min_chars` or a Down forced a
fetch, and clear them otherwise; when a selection is active the state is
left untouched. -/
def refreshSuggestions (cfg : Config) (force : Bool) (s : AState) : AState :=
  match s.selected with
  | none =>
    if cfg.min_chars < s.chars.length ∨ force = true then
      { s with suggestions := get_suggestions cfg (String.mk s.chars) }
    else
      { s with suggestions := [] }
  | some _ => s

/-- Outcome tag of one `input` call: a normal return carrying the committed
text, an EOFError abort, or a read that would block because the modelled
input stream ran out (a real terminal read waits instead). -/
inductive Res where
  | done : String → Res
  | abort : Res
  | pending : Res
deriving DecidableEq

/-- Result of running the read loop: the outcome tag, the session state at
that point, and the unread remainder of the input stream. -/
structure InputResult where
  res : Res
  state : AState
  rest : List Char
deriving DecidableEq

/-- Read loop of `Autocomplete.input`: classify each character (Enter,
backspace, escape introducer, end-of-input, printable), run the handler,
then the suggestion refresh, and continue on the remaining stream. An
escape introducer consumes the next two characters; when they are not
available the modelled stream reports `pending`. -/
def inputLoop (cfg : Config) : AState → List Char → InputResult
  | s, [] => { res := Res.pending, state := s, rest := [] }
  | s, c :: cs =>
    if c = '\n' then
      let s2 := choose_selection s
      { res := Res.done (String.mk s2.chars), state := s2, rest := cs }
    else if c = BACKSPACE then
      inputLoop cfg (refreshSuggestions cfg false (handle_backspace s)) cs
    else if c = ESCAPE then
      match cs with
      | c2 :: c3 :: cs2 =>
        let r := handle_special_key s c2 c3
        inputLoop cfg (refreshSuggestions cfg r.2 r.1) cs2
      | _ => { res := Res.pending, state := s, rest := cs }
    else if c = CTRL_D then
      { res := Res.abort, state := s, rest := cs }
    else
      inputLoop cfg (refreshSuggestions cfg false (handle_char c s)) cs

/-- Entry action of `Autocomplete.input`: the prompt is stored (display
only) and `self.chars.clear()` empties the buffer; `selected` and
`suggestions` are left exactly as the previous call left them. -/
def inputEntry (s : AState) : AState := { s with chars := [] }

/-- Method `Autocomplete.input` on an object whose session state is `s`:
clear the buffer, then run the read loop on the stream. -/
def input (cfg : Config) (s : AState) (stream : List Char) : InputResult :=
  inputLoop cfg (inputEntry s) stream

/-- Run of `input` on a freshly constructed `Autocomplete`. -/
def inputRun (cfg : Config) (stream : List Char) : InputResult :=
  input cfg initState stream

/-- ASCII lowering of one character, the effect of `str.lower` on the ASCII
data this module deals in. -/
def lowerChar (c : Char) : Char :=
  if 65 ≤ c.toNat ∧ c.toNat ≤ 90 then Char.ofNat (c.toNat + 32) else c

/-- ASCII lowering of a string (`str.lower`). -/
def lowerStr (s : String) : String := String.mk (s.toList.map lowerChar)

/-- Executable substring test on character lists, the meaning of Python
`needle in hay` on strings. -/
def isSubstring (needle : List Char) : List Char → Bool
  | [] => needle.isEmpty
  | c :: t => List.isPrefixOf needle (c :: t) || isSubstring needle t

/-- Function `sequence_to_autocomplete`: lowercase the candidates once, then
match the lowercased query; with `fuzzy` the query may occur anywhere in
the candidate (Python `in`), otherwise the candidate must start with it
(`startswith`). -/
def sequence_to_autocomplete (sequence : List String) (fuzzy : Bool) : String → List String :=
  let seq := sequence.map lowerStr
  if fuzzy then
    fun chars => seq.filter (fun x => isSubstring (lowerStr chars).toList x.toList)
  else
    fun chars => seq.filter (fun x => List.isPrefixOf (lowerStr chars).toList x.toList)

/-- Candidate list used by the spec scenarios and the test suite. -/
def countries : List String := ["albania", "brazil", "chad", "namibia", "nauru", "zambia"]

/-- Default-configured editor over `countries`: case-insensitive matching at
the front, `max_options = 20`, `min_chars = 1` (the constructor
defaults). -/
def countryCfg : Config :=
  { completer := sequence_to_autocomplete countries false
    max_options := some 20
    min_chars := 1 }

/-- Capitalized candidate list for the C10 scenario. -/
def capitalCountries : List String := ["Albania", "BRAZIL"]

/-- Default-configured editor over `capitalCountries`. -/
def capitalCfg : Config :=
  { completer := sequence_to_autocomplete capitalCountries false
    max_options := some 20
    min_chars := 1 }

/-- Byte sequence the terminal sends for the Down arrow key. -/
def downBytes : List Char := [ESCAPE, '[', 'B']

/-- Byte sequence the terminal sends for the Up arrow key. -/
def upBytes : List Char := [ESCAPE, '[', 'A']

/-- Full effect of one Down keystroke on the session state: `select_down`
followed by the suggestion refresh with forcing on. -/
def downKey (cfg : Config) (s : AState) : AState :=
  refreshSuggestions cfg true (select_down s)

/-- Full effect of one Up keystroke on the session state: `select_up`
followed by the suggestion refresh with no forcing. -/
def upKey (cfg : Config) (s : AState) : AState :=
  refreshSuggestions cfg false (select_up s)

/-- Rank of an optional selection index: none is 0, index i is i + 1. -/
def optRank : Option Nat → Nat
  | none => 0
  | some i => i + 1

/-- Rank of the selection of a session state. -/
def selRank (s : AState) : Nat := optRank s.selected

/-- Selection-bounds invariant: when a selection is present, its index lies
strictly inside the suggestion list. -/
def SelInv (s : AState) : Bool :=
  match s.selected with
  | none => true
  | some i => decide (i + 1 ≤ s.suggestions.length)

/-- Outcome of `with Autocomplete(...) as ac: ac.input(prompt)`: the
committed text or the propagated EOFError, in both cases after `__exit__`
has restored the saved terminal settings; `blocked` marks a modelled
stream that ran out mid-loop, where the real editor would still be
reading with the terminal in cbreak mode. -/
inductive WithResult where
  | returned : String → Nat → WithResult
  | raised : Nat → WithResult
  | blocked : Nat → WithResult
deriving DecidableEq

/-- Run of the context manager around one `input` call, tracking the
terminal mode as a number: `Printer.__init__` saves
`old_settings := tmode` and puts the terminal in cbreak mode, and
`__exit__` calls `close`, which restores `old_settings` via `tcsetattr` —
on the normal path and on the EOFError path alike, before either result
reaches the caller. -/
def withInput (cfg : Config) (stream : List Char) (tmode cbreakMode : Nat) : WithResult :=
  let old_settings := tmode
  let r := inputRun cfg stream
  match r.res with
  | Res.done v => WithResult.returned v old_settings
  | Res.abort => WithResult.raised old_settings
  | Res.pending => WithResult.blocked cbreakMode

/-- State of the `Printer` renderer: the chunks written to stdout so far (in
order), plus the two persistent fields `cursor_pos` and
`lines_below_cursor`. -/
structure Printer where
  out : List String
  cursor_pos : Nat
  lines_below_cursor : Nat
deriving DecidableEq

/-- One `stdout.write` call: append the chunk to the output. -/
def Printer.write (p : Printer) (s : String) : Printer := { p with out := p.out ++ [s] }

/-- Method `Printer.csi`: write the control-sequence introducer followed by
the code. -/
def Printer.csi (p : Printer) (code : String) : Printer := p.write ("\x1b[" ++ code)

/-- Method `Printer.clear_line`: erase the current display line. -/
def Printer.clear_line (p : Printer) : Printer := p.csi "2K"

/-- Method `Printer.return_to_start`: move the cursor to column 0. -/
def Printer.return_to_start (p : Printer) : Printer := p.csi "G"

/-- Method `Printer.cursor_down` (the no-argument form used by the
overlay code). -/
def Printer.cursor_down (p : Printer) : Printer := p.csi "B"

/-- Method `Printer.cursor_up`. -/
def Printer.cursor_up (p : Printer) (n : Nat) : Printer := p.csi (toString n ++ "A")

/-- Method `Printer.cursor_right`. -/
def Printer.cursor_right (p : Printer) (n : Nat) : Printer := p.csi (toString n ++ "C")

/-- Method `Printer.print_line`: erase the line, return to column 0, write
the text and record its length as the cursor column. -/
def Printer.print_line (p : Printer) (line : String) : Printer :=
  let p1 := p.clear_line.return_to_start.write line
  { p1 with cursor_pos := line.length }

/-- Method `Printer.clear_below_cursor`: a no-op when no overlay lines are
painted; otherwise move down, erase-and-advance once per painted line,
move back up, and reset the count to zero. -/
def Printer.clear_below_cursor (p : Printer) : Printer :=
  if p.lines_below_cursor = 0 then p
  else
    let p1 := p.cursor_down
    let p2 := (List.range p.lines_below_cursor).foldl (fun q _ => q.clear_line.cursor_down) p1
    let p3 := p2.cursor_up (p.lines_below_cursor + 1)
    { p3 with lines_below_cursor := 0 }

/-- One iteration of the choice-printing loop in
`Printer.print_lines_below_cursor`: the entry at the highlighted index is
wrapped in inverse-video codes. -/
def Printer.printChoice (p : Printer) (highlight : Option Nat) (i : Nat)
    (choice : String) : Printer :=
  if highlight = some i then ((p.write "\x1b[7m").write (choice ++ "\n")).write "\x1b[0m"
  else p.write (choice ++ "\n")

/-- Method `Printer.print_lines_below_cursor`: clear any previous overlay,
return early when there is nothing to paint, otherwise open the overlay
with a literal newline, write each choice on its own line, record the
count, and move the cursor back to its position on the input line. -/
def Printer.print_lines_below_cursor (p : Printer) (lines : List String)
    (highlight : Option Nat) : Printer :=
  let p0 := p.clear_below_cursor
  if lines = [] then p0
  else
    let p1 := p0.write "\n"
    let p2 := lines.enum.foldl (fun q ic => q.printChoice highlight ic.1 ic.2) p1
    let p3 := { p2 with lines_below_cursor := lines.length }
    let p4 := p3.cursor_up (lines.length + 1)
    p4.cursor_right p4.cursor_pos

/-- Number of chunks in the written output equal to a given control code. -/
def countCode (code : String) (l : List String) : Nat :=
  (l.filter (fun x => x = code)).length

end Xcli

namespace Xcli

/-- Step equation of the read loop: an empty stream reports `pending`. -/
theorem inputLoop_nil (cfg : Config) (s : AState) :
    inputLoop cfg s [] = { res := Res.pending, state := s, rest := [] } := rfl

/-- Step equation of the read loop: Enter commits the selection and
returns. -/
theorem inputLoop_enter (cfg : Config) (s : AState) (cs : List Char) :
    inputLoop cfg s ('\n' :: cs)
      = { res := Res.done (String.mk (choose_selection s).chars)
          state := choose_selection s
          rest := cs } := by
  rcases cs with _ | ⟨c2, _ | ⟨c3, cs2⟩⟩ <;> rfl

/-- Step equation of the read loop: backspace. -/
theorem inputLoop_bsp (cfg : Config) (s : AState) (cs : List Char) :
    inputLoop cfg s (BACKSPACE :: cs)
      = inputLoop cfg (refreshSuggestions cfg false (handle_backspace s)) cs := by
  rcases cs with _ | ⟨c2, _ | ⟨c3, cs2⟩⟩ <;> rfl

/-- Step equation of the read loop: a full escape sequence. -/
theorem inputLoop_escape (cfg : Config) (s : AState) (c2 c3 : Char) (cs2 : List Char) :
    inputLoop cfg s (ESCAPE :: c2 :: c3 :: cs2)
      = inputLoop cfg
          (refreshSuggestions cfg (handle_special_key s c2 c3).2 (handle_special_key s c2 c3).1)
          cs2 := rfl

/-- Step equation of the read loop: the end-of-input marker aborts at once,
leaving the state untouched. -/
theorem inputLoop_eof (cfg : Config) (s : AState) (cs : List Char) :
    inputLoop cfg s (CTRL_D :: cs) = { res := Res.abort, state := s, rest := cs } := by
  rcases cs with _ | ⟨c2, _ | ⟨c3, cs2⟩⟩ <;> rfl

/-- Step equation of the read loop: any other character is handled by
`handle_char`. -/
theorem inputLoop_char_step (cfg : Config) (s : AState) (c : Char) (cs : List Char)
    (h1 : ¬c = '\n') (h2 : ¬c = BACKSPACE) (h3 : ¬c = ESCAPE) (h4 : ¬c = CTRL_D) :
    inputLoop cfg s (c :: cs)
      = inputLoop cfg (refreshSuggestions cfg false (handle_char c s)) cs := by
  conv_lhs => rw [inputLoop.eq_def]
  simp only [if_neg h1, if_neg h2, if_neg h3, if_neg h4]

/-- Committing a selection always leaves no selection behind. -/
theorem choose_selection_selected (s : AState) : (choose_selection s).selected = none := by
  rcases s with ⟨ch, su, se⟩
  cases se <;> rfl

/-- The suggestion refresh never touches the buffer. -/
theorem refresh_chars (cfg : Config) (f : Bool) (s : AState) :
    (refreshSuggestions cfg f s).chars = s.chars := by
  rcases s with ⟨ch, su, se⟩
  cases se
  · dsimp only [refreshSuggestions]
    split <;> rfl
  · rfl

/-- The suggestion refresh never touches the selection. -/
theorem refresh_selected (cfg : Config) (f : Bool) (s : AState) :
    (refreshSuggestions cfg f s).selected = s.selected := by
  rcases s with ⟨ch, su, se⟩
  cases se
  · dsimp only [refreshSuggestions]
    split <;> rfl
  · rfl

/-- Selection movement never touches the buffer: up. -/
theorem select_up_chars (s : AState) : (select_up s).chars = s.chars := by
  rcases s with ⟨ch, su, se⟩
  rcases se with _ | (_ | i) <;> rfl

/-- Selection movement never touches the buffer: down. -/
theorem select_down_chars (s : AState) : (select_down s).chars = s.chars := by
  rcases s with ⟨ch, su, se⟩
  rcases se with _ | i <;>
    · dsimp only [select_down]
      split <;> rfl

/-- One Up keystroke never touches the buffer. -/
theorem upKey_chars (cfg : Config) (s : AState) : (upKey cfg s).chars = s.chars := by
  rw [upKey, refresh_chars, select_up_chars]

/-- One Down keystroke never touches the buffer. -/
theorem downKey_chars (cfg : Config) (s : AState) : (downKey cfg s).chars = s.chars := by
  rw [downKey, refresh_chars, select_down_chars]

/-- Iterated Up keystrokes never touch the buffer. -/
theorem upKey_iter_chars (cfg : Config) (n : Nat) (s : AState) :
    ((upKey cfg)^[n] s).chars = s.chars := by
  induction n generalizing s with
  | zero => rfl
  | succ n ih => rw [Function.iterate_succ_apply, ih, upKey_chars]

/-- Iterated Down keystrokes never touch the buffer. -/
theorem downKey_iter_chars (cfg : Config) (n : Nat) (s : AState) :
    ((downKey cfg)^[n] s).chars = s.chars := by
  induction n generalizing s with
  | zero => rfl
  | succ n ih => rw [Function.iterate_succ_apply, ih, downKey_chars]

/-- One Up keystroke lowers the selection rank by exactly one (truncated
at zero). -/
theorem selRank_upKey (cfg : Config) (s : AState) : selRank (upKey cfg s) = selRank s - 1 := by
  unfold selRank
  rw [upKey, refresh_selected]
  rcases s with ⟨ch, su, se⟩
  rcases se with _ | (_ | i) <;> rfl

/-- One Down keystroke raises the selection rank by at most one. -/
theorem selRank_downKey (cfg : Config) (s : AState) :
    selRank (downKey cfg s) ≤ selRank s + 1 := by
  unfold selRank
  rw [downKey, refresh_selected]
  rcases s with ⟨ch, su, se⟩
  rcases se with _ | i <;>
    · dsimp only [select_down]
      split <;> simp [optRank]

/-- Iterated Up keystrokes subtract their count from the selection rank. -/
theorem selRank_upKey_iter (cfg : Config) (n : Nat) (s : AState) :
    selRank ((upKey cfg)^[n] s) = selRank s - n := by
  induction n generalizing s with
  | zero => rfl
  | succ n ih =>
      rw [Function.iterate_succ_apply, ih, selRank_upKey]
      omega

/-- Iterated Down keystrokes raise the selection rank by at most their
count. -/
theorem selRank_downKey_iter (cfg : Config) (n : Nat) (s : AState) :
    selRank ((downKey cfg)^[n] s) ≤ selRank s + n := by
  induction n generalizing s with
  | zero => exact Nat.le_refl _
  | succ n ih =>
      rw [Function.iterate_succ_apply]
      have h1 := ih (downKey cfg s)
      have h2 := selRank_downKey cfg s
      omega

/-- Rank zero means no selection. -/
theorem selected_none_of_rank (s : AState) (h : selRank s = 0) : s.selected = none := by
  rcases s with ⟨ch, su, se⟩
  rcases se with _ | i
  · rfl
  · exact absurd h (by simp [selRank, optRank])

/-- C7: from a state with no active selection, a run of n ≥ 1 Down
keystrokes that ends with a selection present is undone by n Up
keystrokes: the selection is gone again and the buffer is exactly what it
was before the first Down; moreover one Down or Up keystroke on the byte
stream is precisely `downKey` or `upKey` on the state. -/
theorem c7_round_trip (cfg : Config) (s0 : AState) (n : Nat) (rest : List Char)
    (h0 : s0.selected = none) (hn : 1 ≤ n)
    (hsel : ((downKey cfg)^[n] s0).selected.isSome = true) :
    ((upKey cfg)^[n] ((downKey cfg)^[n] s0)).selected = none
    ∧ ((upKey cfg)^[n] ((downKey cfg)^[n] s0)).chars = s0.chars
    ∧ inputLoop cfg s0 (downBytes ++ rest) = inputLoop cfg (downKey cfg s0) rest
    ∧ inputLoop cfg s0 (upBytes ++ rest) = inputLoop cfg (upKey cfg s0) rest := by
  have hr0 : selRank s0 = 0 := by rw [selRank, h0]; rfl
  have hd : selRank ((downKey cfg)^[n] s0) ≤ n := by
    have := selRank_downKey_iter cfg n s0
    omega
  have hu : selRank ((upKey cfg)^[n] ((downKey cfg)^[n] s0)) = 0 := by
    rw [selRank_upKey_iter]
    omega
  refine ⟨selected_none_of_rank _ hu, ?_, rfl, rfl⟩
  rw [upKey_iter_chars, downKey_iter_chars]

/-- Witness for C7: two Downs from the "na" state select index 1; two Ups
return to the unselected state with the buffer still "na". -/
theorem c7_round_trip_witness :
    ((upKey countryCfg)^[2] ((downKey countryCfg)^[2]
        ⟨['n', 'a'], ["namibia", "nauru"], none⟩)).selected = none
    ∧ ((upKey countryCfg)^[2] ((downKey countryCfg)^[2]
        ⟨['n', 'a'], ["namibia", "nauru"], none⟩)).chars
        = (⟨['n', 'a'], ["namibia", "nauru"], none⟩ : AState).chars
    ∧ inputLoop countryCfg ⟨['n', 'a'], ["namibia", "nauru"], none⟩ (downBytes ++ ['\n'])
        = inputLoop countryCfg (downKey countryCfg ⟨['n', 'a'], ["namibia", "nauru"], none⟩) ['\n']
    ∧ inputLoop countryCfg ⟨['n', 'a'], ["namibia", "nauru"], none⟩ (upBytes ++ ['\n'])
        = inputLoop countryCfg (upKey countryCfg ⟨['n', 'a'], ["namibia", "nauru"], none⟩) ['\n'] :=
  c7_round_trip countryCfg ⟨['n', 'a'], ["namibia", "nauru"], none⟩ 2 ['\n'] rfl
    (by decide) (by decide)

/-- C1: from an empty buffer with `min_chars = 1` and the default country
completer, Down-Down-Down-Enter returns "brazil"; the first Down only
fetches all six candidates and selects nothing, the second selects
index 0 (albania), the third advances the selection to index 1
(brazil). -/
theorem c1_three_downs_return_brazil :
    (inputRun countryCfg (downBytes ++ downBytes ++ downBytes ++ ['\n'])).res
        = Res.done "brazil"
    ∧ (inputRun countryCfg downBytes).state
        = { chars := [], suggestions := countries, selected := none }
    ∧ (inputRun countryCfg (downBytes ++ downBytes)).state.selected = some 0
    ∧ (inputRun countryCfg (downBytes ++ downBytes)).state.suggestions.getD 0 "" = "albania"
    ∧ (inputRun countryCfg (downBytes ++ downBytes ++ downBytes)).state.selected = some 1
    ∧ (inputRun countryCfg (downBytes ++ downBytes ++ downBytes)).state.suggestions.getD 1 ""
        = "brazil" := by
  decide

/-- C3: an escape sequence whose two-character suffix is neither Up nor Down
consumes exactly those two characters and continues the loop on the rest
of the stream; no error outcome is introduced, and the buffer and the
selection are unchanged through the handler and the suggestion refresh
that runs on every keystroke (with no forcing). -/
theorem c3_unknown_escape_ignored (cfg : Config) (s : AState) (c2 c3 : Char)
    (rest : List Char)
    (hup : (c2.toNat, c3.toNat) ≠ UP) (hdown : (c2.toNat, c3.toNat) ≠ DOWN) :
    handle_special_key s c2 c3 = (s, false)
    ∧ inputLoop cfg s (ESCAPE :: c2 :: c3 :: rest)
        = inputLoop cfg (refreshSuggestions cfg false s) rest
    ∧ (refreshSuggestions cfg false s).chars = s.chars
    ∧ (refreshSuggestions cfg false s).selected = s.selected := by
  have h1 : handle_special_key s c2 c3 = (s, false) := by
    simp only [handle_special_key]
    rw [if_neg hup, if_neg hdown]
  have h2 : inputLoop cfg s (ESCAPE :: c2 :: c3 :: rest)
      = inputLoop cfg (refreshSuggestions cfg (handle_special_key s c2 c3).2
          (handle_special_key s c2 c3).1) rest := rfl
  refine ⟨h1, ?_, refresh_chars cfg false s, refresh_selected cfg false s⟩
  rw [h2, h1]

/-- Witness for C3 at the Right-arrow suffix `[C` from the initial state. -/
theorem c3_unknown_escape_ignored_witness :
    handle_special_key initState '[' 'C' = (initState, false)
    ∧ inputLoop countryCfg initState (ESCAPE :: '[' :: 'C' :: [])
        = inputLoop countryCfg (refreshSuggestions countryCfg false initState) []
    ∧ (refreshSuggestions countryCfg false initState).chars = initState.chars
    ∧ (refreshSuggestions countryCfg false initState).selected = initState.selected :=
  c3_unknown_escape_ignored countryCfg initState '[' 'C' [] (by decide) (by decide)

/-- C5: backspace and printable characters commit the active selection into
the buffer before editing — backspace then drops the last character of
the committed text, a printable character appends itself to it — and the
two concrete scenarios from the spec hold. -/
theorem c5_commit_before_edit (s : AState) (i : Nat) (c : Char)
    (hsel : s.selected = some i) :
    (handle_backspace s).chars = ((s.suggestions.getD i "").toList).dropLast
    ∧ (handle_backspace s).selected = none
    ∧ (handle_char c s).chars = (s.suggestions.getD i "").toList ++ [c]
    ∧ (handle_char c s).selected = none
    ∧ (inputRun countryCfg (['z', 'a'] ++ downBytes ++ [BACKSPACE, '\n'])).res
        = Res.done "zambi"
    ∧ (inputRun countryCfg (['z', 'a'] ++ downBytes ++ ['s', '\n'])).res
        = Res.done "zambias" := by
  rcases s with ⟨ch, su, se⟩
  cases hsel
  exact ⟨rfl, rfl, rfl, rfl, by decide, by decide⟩

/-- Witness for C5 at a state whose selection is the single suggestion
"zambia". -/
theorem c5_commit_before_edit_witness :
    (handle_backspace ⟨['z', 'a'], ["zambia"], some 0⟩).chars
        = (((["zambia"] : List String).getD 0 "").toList).dropLast
    ∧ (handle_backspace ⟨['z', 'a'], ["zambia"], some 0⟩).selected = none
    ∧ (handle_char 's' ⟨['z', 'a'], ["zambia"], some 0⟩).chars
        = ((["zambia"] : List String).getD 0 "").toList ++ ['s']
    ∧ (handle_char 's' ⟨['z', 'a'], ["zambia"], some 0⟩).selected = none
    ∧ (inputRun countryCfg (['z', 'a'] ++ downBytes ++ [BACKSPACE, '\n'])).res
        = Res.done "zambi"
    ∧ (inputRun countryCfg (['z', 'a'] ++ downBytes ++ ['s', '\n'])).res
        = Res.done "zambias" :=
  c5_commit_before_edit ⟨['z', 'a'], ["zambia"], some 0⟩ 0 's' rfl

/-- C10: every suggestion returned by a `sequence_to_autocomplete` completer
is the lowercasing of some element of the candidate list, so committing a
selection yields all-lowercase text even when the original candidate was
capitalized — concretely, typing "al" and selecting over
`["Albania", "BRAZIL"]` returns "albania". -/
theorem c10_lowercased (sequence : List String) (fuzzy : Bool) (chars y : String)
    (hy : y ∈ sequence_to_autocomplete sequence fuzzy chars) :
    (∃ x ∈ sequence, y = lowerStr x)
    ∧ (inputRun capitalCfg (['a', 'l'] ++ downBytes ++ ['\n'])).res
        = Res.done "albania" := by
  constructor
  · have hmem : y ∈ sequence.map lowerStr := by
      unfold sequence_to_autocomplete at hy
      cases fuzzy <;> simp only [if_true, if_false, Bool.false_eq_true] at hy <;>
        exact (List.mem_filter.mp hy).1
    rcases List.mem_map.mp hmem with ⟨x, hx, hxy⟩
    exact ⟨x, hx, hxy.symm⟩
  · decide

/-- Witness for C10 at the suggestion "albania" produced from the query "al"
over the capitalized candidate list. -/
theorem c10_lowercased_witness :
    (∃ x ∈ capitalCountries, "albania" = lowerStr x)
    ∧ (inputRun capitalCfg (['a', 'l'] ++ downBytes ++ ['\n'])).res
        = Res.done "albania" :=
  c10_lowercased capitalCountries false "al" "albania" (by decide)

/-- The selection-bounds invariant holds whenever nothing is selected. -/
theorem selInv_of_selected_none (s : AState) (h : s.selected = none) : SelInv s = true := by
  rcases s with ⟨ch, su, se⟩
  cases h
  rfl

/-- Committing a selection preserves the selection-bounds invariant. -/
theorem selInv_choose (s : AState) : SelInv (choose_selection s) = true :=
  selInv_of_selected_none _ (choose_selection_selected s)

/-- Backspace preserves the selection-bounds invariant. -/
theorem selInv_backspace (s : AState) : SelInv (handle_backspace s) = true := by
  have h : (handle_backspace s).selected = (choose_selection s).selected := rfl
  exact selInv_of_selected_none _ (h.trans (choose_selection_selected s))

/-- Typing a character preserves the selection-bounds invariant. -/
theorem selInv_char (c : Char) (s : AState) : SelInv (handle_char c s) = true := by
  have h : (handle_char c s).selected = (choose_selection s).selected := rfl
  exact selInv_of_selected_none _ (h.trans (choose_selection_selected s))

/-- Moving the selection up preserves the selection-bounds invariant. -/
theorem selInv_select_up (s : AState) (h : SelInv s = true) : SelInv (select_up s) = true := by
  rcases s with ⟨ch, su, se⟩
  rcases se with _ | (_ | i)
  · exact h
  · rfl
  · simp only [SelInv, decide_eq_true_eq] at h ⊢
    simp only [select_up]
    simp only [SelInv, decide_eq_true_eq]
    omega

/-- Moving the selection down preserves the selection-bounds invariant. -/
theorem selInv_select_down (s : AState) (h : SelInv s = true) :
    SelInv (select_down s) = true := by
  rcases s with ⟨ch, su, se⟩
  rcases se with _ | i
  · dsimp only [select_down]
    split
    · rfl
    · next hne =>
        simp only [SelInv, decide_eq_true_eq]
        have := List.length_pos.mpr hne
        omega
  · dsimp only [select_down]
    split
    · exact h
    · next hlt =>
        simp only [SelInv, decide_eq_true_eq]
        omega

/-- Dispatching an escape suffix preserves the selection-bounds invariant. -/
theorem selInv_special (s : AState) (c2 c3 : Char) (h : SelInv s = true) :
    SelInv (handle_special_key s c2 c3).1 = true := by
  simp only [handle_special_key]
  split
  · exact selInv_select_up s h
  · split
    · exact selInv_select_down s h
    · exact h

/-- The suggestion refresh preserves the selection-bounds invariant. -/
theorem selInv_refresh (cfg : Config) (f : Bool) (s : AState) (h : SelInv s = true) :
    SelInv (refreshSuggestions cfg f s) = true := by
  rcases s with ⟨ch, su, se⟩
  rcases se with _ | i
  · dsimp only [refreshSuggestions]
    split <;> rfl
  · exact h

/-- Clearing the buffer at `input` entry preserves the selection-bounds
invariant. -/
theorem selInv_inputEntry (s : AState) (h : SelInv s = true) : SelInv (inputEntry s) = true := by
  rcases s with ⟨ch, su, se⟩
  rcases se with _ | i
  · rfl
  · exact h

/-- The read loop preserves the selection-bounds invariant all the way to
its final state. -/
theorem selInv_inputLoop (cfg : Config) (s : AState) (stream : List Char)
    (h : SelInv s = true) : SelInv ((inputLoop cfg s stream).state) = true := by
  revert h
  induction s, stream using inputLoop.induct cfg with
  | case1 s => exact fun h => h
  | case2 s cs =>
      intro _
      rw [inputLoop_enter]
      exact selInv_choose s
  | case3 s cs hne ih =>
      intro _
      rw [inputLoop_bsp]
      exact ih (selInv_refresh cfg false _ (selInv_backspace s))
  | case4 s c2 c3 cs2 r hne1 hne2 ih =>
      intro h
      rw [inputLoop_escape]
      exact ih (selInv_refresh cfg _ _ (selInv_special s c2 c3 h))
  | case5 s cs hshort hne1 hne2 =>
      rcases cs with _ | ⟨c2, _ | ⟨c3, cs2⟩⟩
      · exact fun h => h
      · exact fun h => h
      · exact absurd rfl (hshort c2 c3 cs2)
  | case6 s cs hne1 hne2 hne3 =>
      intro h
      rw [inputLoop_eof]
      exact h
  | case7 s c cs h1 h2 h3 h4 ih =>
      intro h
      rw [inputLoop_char_step cfg s c cs h1 h2 h3 h4]
      exact ih (selInv_refresh cfg false _ (selInv_char c s))

/-- C8: the selection-bounds invariant — a present selection always indexes
inside the suggestion list — holds initially and is preserved by every
operation (commit, backspace, printable character, Up, Down, refresh) and
by any full `input` call from any invariant state. -/
theorem c8_selection_bounds (cfg : Config) (s : AState) (c : Char) (f : Bool)
    (stream : List Char) (h : SelInv s = true) :
    SelInv initState = true
    ∧ SelInv (choose_selection s) = true
    ∧ SelInv (handle_backspace s) = true
    ∧ SelInv (handle_char c s) = true
    ∧ SelInv (select_up s) = true
    ∧ SelInv (select_down s) = true
    ∧ SelInv (refreshSuggestions cfg f s) = true
    ∧ SelInv ((input cfg s stream).state) = true :=
  ⟨rfl, selInv_choose s, selInv_backspace s, selInv_char c s, selInv_select_up s h,
   selInv_select_down s h, selInv_refresh cfg f s h,
   selInv_inputLoop cfg (inputEntry s) stream (selInv_inputEntry s h)⟩

/-- Witness for C8 at a state selecting index 1 of a two-entry suggestion
list. -/
theorem c8_selection_bounds_witness :
    SelInv initState = true
    ∧ SelInv (choose_selection ⟨['a'], ["albania", "brazil"], some 1⟩) = true
    ∧ SelInv (handle_backspace ⟨['a'], ["albania", "brazil"], some 1⟩) = true
    ∧ SelInv (handle_char 'x' ⟨['a'], ["albania", "brazil"], some 1⟩) = true
    ∧ SelInv (select_up ⟨['a'], ["albania", "brazil"], some 1⟩) = true
    ∧ SelInv (select_down ⟨['a'], ["albania", "brazil"], some 1⟩) = true
    ∧ SelInv (refreshSuggestions countryCfg true ⟨['a'], ["albania", "brazil"], some 1⟩) = true
    ∧ SelInv ((input countryCfg ⟨['a'], ["albania", "brazil"], some 1⟩ ['\n']).state) = true :=
  c8_selection_bounds countryCfg ⟨['a'], ["albania", "brazil"], some 1⟩ 'x' true ['\n']
    (by decide)

/-- A read loop that returns normally ends with no selection: the Enter
branch commits the selection before returning. -/
theorem inputLoop_done_selected (cfg : Config) (s : AState) (stream : List Char) (v : String)
    (h : (inputLoop cfg s stream).res = Res.done v) :
    (inputLoop cfg s stream).state.selected = none := by
  revert h
  induction s, stream using inputLoop.induct cfg with
  | case1 s =>
      intro h
      exact absurd h (by rw [inputLoop_nil]; exact fun hc => Res.noConfusion hc)
  | case2 s cs =>
      intro _
      rw [inputLoop_enter]
      exact choose_selection_selected s
  | case3 s cs hne ih =>
      intro h
      rw [inputLoop_bsp] at h ⊢
      exact ih h
  | case4 s c2 c3 cs2 r hne1 hne2 ih =>
      intro h
      rw [inputLoop_escape] at h ⊢
      exact ih h
  | case5 s cs hshort hne1 hne2 =>
      rcases cs with _ | ⟨c2, _ | ⟨c3, cs2⟩⟩
      · exact fun h => absurd h (fun hc => Res.noConfusion hc)
      · exact fun h => absurd h (fun hc => Res.noConfusion hc)
      · exact fun _ => absurd rfl (hshort c2 c3 cs2)
  | case6 s cs hne1 hne2 hne3 =>
      intro h
      rw [inputLoop_eof] at h
      exact absurd h (fun hc => Res.noConfusion hc)
  | case7 s c cs h1 h2 h3 h4 ih =>
      intro h
      rw [inputLoop_char_step cfg s c cs h1 h2 h3 h4] at h ⊢
      exact ih h

/-- A read loop that aborts did read the end-of-input marker from the
stream, at a position where the loop consumed it as an ordinary
keystroke. -/
theorem inputLoop_abort_origin (cfg : Config) (s : AState) (stream : List Char)
    (h : (inputLoop cfg s stream).res = Res.abort) :
    ∃ pre suf, stream = pre ++ CTRL_D :: suf := by
  revert h
  induction s, stream using inputLoop.induct cfg with
  | case1 s =>
      intro h
      exact absurd h (by rw [inputLoop_nil]; exact fun hc => Res.noConfusion hc)
  | case2 s cs =>
      intro h
      rw [inputLoop_enter] at h
      exact absurd h (fun hc => Res.noConfusion hc)
  | case3 s cs hne ih =>
      intro h
      rw [inputLoop_bsp] at h
      rcases ih h with ⟨pre, suf, rfl⟩
      exact ⟨BACKSPACE :: pre, suf, rfl⟩
  | case4 s c2 c3 cs2 r hne1 hne2 ih =>
      intro h
      rw [inputLoop_escape] at h
      rcases ih h with ⟨pre, suf, rfl⟩
      exact ⟨ESCAPE :: c2 :: c3 :: pre, suf, rfl⟩
  | case5 s cs hshort hne1 hne2 =>
      rcases cs with _ | ⟨c2, _ | ⟨c3, cs2⟩⟩
      · exact fun h => absurd h (fun hc => Res.noConfusion hc)
      · exact fun h => absurd h (fun hc => Res.noConfusion hc)
      · exact fun _ => absurd rfl (hshort c2 c3 cs2)
  | case6 s cs hne1 hne2 hne3 =>
      exact fun _ => ⟨[], cs, rfl⟩
  | case7 s c cs h1 h2 h3 h4 ih =>
      intro h
      rw [inputLoop_char_step cfg s c cs h1 h2 h3 h4] at h
      rcases ih h with ⟨pre, suf, rfl⟩
      exact ⟨c :: pre, suf, rfl⟩

/-- Counterexample for C2: run `input` on a fresh object with the stream
"al", Down, end-of-input — the call aborts while index 0 of the one-entry
suggestion list is selected — and observe the entry state of the next
`input` call on the same object: the buffer is cleared, but the selection
and the suggestion list survive, so the next session does not start
fresh. -/
theorem c2_counterexample :
    (inputRun countryCfg (['a', 'l'] ++ downBytes ++ [CTRL_D])).res = Res.abort
    ∧ (inputEntry (inputRun countryCfg (['a', 'l'] ++ downBytes ++ [CTRL_D])).state).selected
        = some 0
    ∧ (inputEntry (inputRun countryCfg (['a', 'l'] ++ downBytes ++ [CTRL_D])).state).suggestions
        = ["albania"] := by
  decide

/-- C2 as amended: `input` clears only the buffer at entry — the selection
and the suggestion list are carried over unchanged from the previous call
on the same object. A call that returns normally does end with no
selection (Enter commits it), but nothing resets the suggestion list, and
after an abort both a live selection and the suggestions persist into the
next invocation; only the buffer is guaranteed empty at entry. -/
theorem c2_entry_state_amended (cfg : Config) (s : AState) (stream : List Char) (v : String)
    (hdone : (input cfg s stream).res = Res.done v) :
    (inputEntry s).chars = []
    ∧ (inputEntry s).selected = s.selected
    ∧ (inputEntry s).suggestions = s.suggestions
    ∧ input cfg s stream = inputLoop cfg (inputEntry s) stream
    ∧ (input cfg s stream).state.selected = none :=
  ⟨rfl, rfl, rfl, rfl, inputLoop_done_selected cfg (inputEntry s) stream v hdone⟩

/-- Witness for the amended C2 at a stale state left over by an abort. -/
theorem c2_entry_state_amended_witness :
    (inputEntry ⟨['x'], ["albania"], some 0⟩).chars = []
    ∧ (inputEntry ⟨['x'], ["albania"], some 0⟩).selected
        = (⟨['x'], ["albania"], some 0⟩ : AState).selected
    ∧ (inputEntry ⟨['x'], ["albania"], some 0⟩).suggestions
        = (⟨['x'], ["albania"], some 0⟩ : AState).suggestions
    ∧ input countryCfg ⟨['x'], ["albania"], some 0⟩ ['\n']
        = inputLoop countryCfg (inputEntry ⟨['x'], ["albania"], some 0⟩) ['\n']
    ∧ (input countryCfg ⟨['x'], ["albania"], some 0⟩ ['\n']).state.selected = none :=
  c2_entry_state_amended countryCfg ⟨['x'], ["albania"], some 0⟩ ['\n'] "albania" (by decide)

/-- C4: reading the end-of-input marker at the top of the loop aborts
immediately with the distinct `Res.abort` signal (never equal to a normal
return), the state untouched and the rest of the stream unread; an abort
arises only from a stream containing that marker; and the context-manager
run restores the saved terminal settings before the EOFError surfaces to
the caller. -/
theorem c4_abort_on_eof (cfg : Config) (s : AState) (rest stream : List Char)
    (tmode cbreakMode : Nat) (v : String)
    (habort : (inputRun cfg stream).res = Res.abort) :
    inputLoop cfg s (CTRL_D :: rest) = { res := Res.abort, state := s, rest := rest }
    ∧ Res.abort ≠ Res.done v
    ∧ (∃ pre suf, stream = pre ++ CTRL_D :: suf)
    ∧ withInput cfg stream tmode cbreakMode = WithResult.raised tmode := by
  refine ⟨inputLoop_eof cfg s rest, fun hc => Res.noConfusion hc,
    inputLoop_abort_origin cfg (inputEntry initState) stream habort, ?_⟩
  simp only [withInput]
  rw [habort]

/-- Witness for C4 at the stream "a" followed by the end-of-input marker. -/
theorem c4_abort_on_eof_witness :
    inputLoop countryCfg initState (CTRL_D :: ['q'])
        = { res := Res.abort, state := initState, rest := ['q'] }
    ∧ Res.abort ≠ Res.done "a"
    ∧ (∃ pre suf, ['a', CTRL_D] = pre ++ CTRL_D :: suf)
    ∧ withInput countryCfg ['a', CTRL_D] 7 3 = WithResult.raised 7 :=
  c4_abort_on_eof countryCfg initState ['q'] ['a', CTRL_D] 7 3 "a" (by decide)

/-- Committing a selection never lengthens the suggestion list. -/
theorem sugg_le_choose (s : AState) (n : Nat) (h : s.suggestions.length ≤ n) :
    (choose_selection s).suggestions.length ≤ n := by
  rcases s with ⟨ch, su, se⟩
  rcases se with _ | i
  · exact h
  · exact Nat.zero_le n

/-- Backspace never lengthens the suggestion list. -/
theorem sugg_le_backspace (s : AState) (n : Nat) (h : s.suggestions.length ≤ n) :
    (handle_backspace s).suggestions.length ≤ n := by
  have he : (handle_backspace s).suggestions = (choose_selection s).suggestions := rfl
  rw [he]
  exact sugg_le_choose s n h

/-- Typing a character never lengthens the suggestion list. -/
theorem sugg_le_char (c : Char) (s : AState) (n : Nat) (h : s.suggestions.length ≤ n) :
    (handle_char c s).suggestions.length ≤ n := by
  have he : (handle_char c s).suggestions = (choose_selection s).suggestions := rfl
  rw [he]
  exact sugg_le_choose s n h

/-- Selection movement leaves the suggestion list untouched: up. -/
theorem select_up_suggestions (s : AState) : (select_up s).suggestions = s.suggestions := by
  rcases s with ⟨ch, su, se⟩
  rcases se with _ | (_ | i) <;> rfl

/-- Selection movement leaves the suggestion list untouched: down. -/
theorem select_down_suggestions (s : AState) :
    (select_down s).suggestions = s.suggestions := by
  rcases s with ⟨ch, su, se⟩
  rcases se with _ | i <;>
    · dsimp only [select_down]
      split <;> rfl

/-- Escape dispatch never lengthens the suggestion list. -/
theorem sugg_le_special (s : AState) (c2 c3 : Char) (n : Nat)
    (h : s.suggestions.length ≤ n) :
    (handle_special_key s c2 c3).1.suggestions.length ≤ n := by
  simp only [handle_special_key]
  split
  · rw [select_up_suggestions]; exact h
  · split
    · rw [select_down_suggestions]; exact h
    · exact h

/-- With `max_options = n`, the refresh step leaves at most n
suggestions. -/
theorem sugg_le_refresh (cfg : Config) (n : Nat) (hmax : cfg.max_options = some n)
    (f : Bool) (s : AState) (h : s.suggestions.length ≤ n) :
    (refreshSuggestions cfg f s).suggestions.length ≤ n := by
  rcases s with ⟨ch, su, se⟩
  rcases se with _ | i
  · dsimp only [refreshSuggestions]
    split
    · show (get_suggestions cfg (String.mk ch)).length ≤ n
      unfold get_suggestions
      rw [hmax]
      exact Nat.le_trans (Nat.le_of_eq (List.length_take n _)) (Nat.min_le_left n _)
    · exact Nat.zero_le n
  · exact h

/-- With `max_options = n`, the read loop keeps the suggestion list at no
more than n entries. -/
theorem sugg_le_inputLoop (cfg : Config) (n : Nat) (hmax : cfg.max_options = some n)
    (s : AState) (stream : List Char) (h : s.suggestions.length ≤ n) :
    ((inputLoop cfg s stream).state).suggestions.length ≤ n := by
  revert h
  induction s, stream using inputLoop.induct cfg with
  | case1 s => exact fun h => h
  | case2 s cs =>
      intro h
      rw [inputLoop_enter]
      exact sugg_le_choose s n h
  | case3 s cs hne ih =>
      intro h
      rw [inputLoop_bsp]
      exact ih (sugg_le_refresh cfg n hmax false _ (sugg_le_backspace s n h))
  | case4 s c2 c3 cs2 r hne1 hne2 ih =>
      intro h
      rw [inputLoop_escape]
      exact ih (sugg_le_refresh cfg n hmax _ _ (sugg_le_special s c2 c3 n h))
  | case5 s cs hshort hne1 hne2 =>
      rcases cs with _ | ⟨c2, _ | ⟨c3, cs2⟩⟩
      · exact fun h => h
      · exact fun h => h
      · exact absurd rfl (hshort c2 c3 cs2)
  | case6 s cs hne1 hne2 hne3 =>
      intro h
      rw [inputLoop_eof]
      exact h
  | case7 s c cs h1 h2 h3 h4 ih =>
      intro h
      rw [inputLoop_char_step cfg s c cs h1 h2 h3 h4]
      exact ih (sugg_le_refresh cfg n hmax false _ (sugg_le_char c s n h))

/-- A true selection-bounds invariant gives the numeric bound on a present
selection. -/
theorem selInv_bound (t : AState) (j : Nat) (ht : SelInv t = true)
    (hj : t.selected = some j) : j + 1 ≤ t.suggestions.length := by
  rcases t with ⟨ch, su, se⟩
  cases hj
  simpa only [SelInv, decide_eq_true_eq] using ht

/-- C6: after a non-Enter keystroke, when nothing is selected the refresh
recomputes the suggestion list as the first `max_options` entries of the
completer on the current buffer exactly when the buffer exceeds
`min_chars` or the keystroke was a forcing Down, and clears it otherwise;
when a selection is present the state is untouched. Consequently any
`input` run keeps at most `max_options` suggestions and a selection index
always stays below `max_options`. -/
theorem c6_refresh_policy (cfg : Config) (s : AState) (force : Bool) (n i j : Nat)
    (stream : List Char)
    (hmax : cfg.max_options = some n)
    (hlen : s.suggestions.length ≤ n)
    (hinv : SelInv s = true) :
    (s.selected = none → (cfg.min_chars < s.chars.length ∨ force = true) →
        (refreshSuggestions cfg force s).suggestions
          = (cfg.completer (String.mk s.chars)).take n)
    ∧ (s.selected = none → ¬(cfg.min_chars < s.chars.length ∨ force = true) →
        (refreshSuggestions cfg force s).suggestions = [])
    ∧ (s.selected = some i → refreshSuggestions cfg force s = s)
    ∧ (input cfg s stream).state.suggestions.length ≤ n
    ∧ ((input cfg s stream).state.selected = some j → j < n) := by
  refine ⟨?_, ?_, ?_, ?_, ?_⟩
  · intro h0 hcond
    rcases s with ⟨ch, su, se⟩
    cases h0
    dsimp only [refreshSuggestions]
    rw [if_pos hcond]
    show get_suggestions cfg (String.mk ch) = _
    unfold get_suggestions
    rw [hmax]
  · intro h0 hcond
    rcases s with ⟨ch, su, se⟩
    cases h0
    dsimp only [refreshSuggestions]
    rw [if_neg hcond]
  · intro h0
    rcases s with ⟨ch, su, se⟩
    cases h0
    rfl
  · exact sugg_le_inputLoop cfg n hmax (inputEntry s) stream hlen
  · intro hj
    have ht := selInv_inputLoop cfg (inputEntry s) stream (selInv_inputEntry s hinv)
    have hb := selInv_bound _ j ht hj
    have hl := sugg_le_inputLoop cfg n hmax (inputEntry s) stream hlen
    omega

/-- Witness for C6 over the country configuration, from a state with a live
selection. -/
theorem c6_refresh_policy_witness :
    ((⟨['a', 'l'], ["albania"], some 0⟩ : AState).selected = none →
        (countryCfg.min_chars < (⟨['a', 'l'], ["albania"], some 0⟩ : AState).chars.length
          ∨ false = true) →
        (refreshSuggestions countryCfg false ⟨['a', 'l'], ["albania"], some 0⟩).suggestions
          = (countryCfg.completer (String.mk ['a', 'l'])).take 20)
    ∧ ((⟨['a', 'l'], ["albania"], some 0⟩ : AState).selected = none →
        ¬(countryCfg.min_chars < (⟨['a', 'l'], ["albania"], some 0⟩ : AState).chars.length
          ∨ false = true) →
        (refreshSuggestions countryCfg false ⟨['a', 'l'], ["albania"], some 0⟩).suggestions = [])
    ∧ ((⟨['a', 'l'], ["albania"], some 0⟩ : AState).selected = some 0 →
        refreshSuggestions countryCfg false ⟨['a', 'l'], ["albania"], some 0⟩
          = ⟨['a', 'l'], ["albania"], some 0⟩)
    ∧ (input countryCfg ⟨['a', 'l'], ["albania"], some 0⟩ ['\n']).state.suggestions.length ≤ 20
    ∧ ((input countryCfg ⟨['a', 'l'], ["albania"], some 0⟩ ['\n']).state.selected = some 0 →
        0 < 20) :=
  c6_refresh_policy countryCfg ⟨['a', 'l'], ["albania"], some 0⟩ false 20 0 0 ['\n'] rfl
    (by decide) (by decide)

/-- Counting a code distributes over appended output. -/
theorem countCode_append (code : String) (l1 l2 : List String) :
    countCode code (l1 ++ l2) = countCode code l1 + countCode code l2 := by
  simp [countCode, List.filter_append]

/-- One erase-and-advance iteration writes exactly the erase-line code then
the cursor-down code. -/
theorem clear_down_out (r : Printer) :
    (r.clear_line.cursor_down).out = r.out ++ ["\x1b[2K", "\x1b[B"] := by
  have hs1 : ("\x1b[" ++ "2K" : String) = "\x1b[2K" := rfl
  have hs2 : ("\x1b[" ++ "B" : String) = "\x1b[B" := rfl
  simp [Printer.clear_line, Printer.cursor_down, Printer.csi, Printer.write, hs1, hs2]

/-- Output of the erase loop of `clear_below_cursor`: one erase-line plus
cursor-down pair per iteration. -/
theorem clearFold_out (k : Nat) (q : Printer) :
    ((List.range k).foldl (fun r _ => r.clear_line.cursor_down) q).out
      = q.out ++ (List.replicate k (["\x1b[2K", "\x1b[B"] : List String)).flatten := by
  induction k generalizing q with
  | zero => simp
  | succ m ih =>
      rw [List.range_succ, List.foldl_append]
      simp only [List.foldl_cons, List.foldl_nil]
      rw [clear_down_out, ih q, List.replicate_succ']
      simp [List.flatten_append, List.append_assoc]

/-- The erase loop output contains exactly one erase-line code per
iteration. -/
theorem countCode_clear_chunks (k : Nat) :
    countCode "\x1b[2K" ((List.replicate k (["\x1b[2K", "\x1b[B"] : List String)).flatten)
      = k := by
  induction k with
  | zero => rfl
  | succ m ih =>
      rw [List.replicate_succ, List.flatten_cons, countCode_append, ih]
      have h1 : countCode "\x1b[2K" ["\x1b[2K", "\x1b[B"] = 1 := by decide
      omega

/-- A cursor-up control code is never the erase-line code, whatever the
count digits are. -/
theorem up_code_ne (t : String) : ¬("\x1b[" ++ (t ++ "A") : String) = "\x1b[2K" := by
  intro hc
  have hd := congrArg String.data hc
  rw [String.data_append, String.data_append] at hd
  have h2 : t.data ++ ['A'] = ['2', 'K'] := by
    have hpre : ("\x1b[" : String).data = ['\x1b', '['] := rfl
    have hA : ("A" : String).data = ['A'] := rfl
    have hfull : ("\x1b[2K" : String).data = ['\x1b', '[', '2', 'K'] := rfl
    rw [hpre, hA, hfull] at hd
    simpa using hd
  have h3 := congrArg List.getLast? h2
  rw [List.getLast?_concat] at h3
  have h4 : (['2', 'K'] : List Char).getLast? = some 'K' := rfl
  rw [h4] at h3
  exact absurd (Option.some.inj h3) (by decide)

/-- The cursor-up chunk contributes no erase-line code to the count. -/
theorem up_chunk_count (t : String) :
    countCode "\x1b[2K" ["\x1b[" ++ (t ++ "A")] = 0 := by
  unfold countCode
  rw [List.filter_cons]
  rw [if_neg (by simpa using up_code_ne t)]
  rfl

/-- Full output of a non-trivial `clear_below_cursor`: cursor-down, the
erase loop, then one cursor-up chunk. -/
theorem clear_below_cursor_out (p : Printer) (h : ¬p.lines_below_cursor = 0) :
    (p.clear_below_cursor).out
      = p.out ++ ("\x1b[B"
          :: ((List.replicate p.lines_below_cursor (["\x1b[2K", "\x1b[B"] : List String)).flatten
              ++ ["\x1b[" ++ (toString (p.lines_below_cursor + 1) ++ "A")])) := by
  unfold Printer.clear_below_cursor
  rw [if_neg h]
  show (((List.range p.lines_below_cursor).foldl (fun r _ => r.clear_line.cursor_down)
      p.cursor_down).cursor_up (p.lines_below_cursor + 1)).out = _
  have hup : ∀ (q : Printer) (n : Nat),
      (q.cursor_up n).out = q.out ++ ["\x1b[" ++ (toString n ++ "A")] := fun q n => rfl
  have hdn : (p.cursor_down).out = p.out ++ ["\x1b[B"] := by
    have hs : ("\x1b[" ++ "B" : String) = "\x1b[B" := rfl
    simp [Printer.cursor_down, Printer.csi, Printer.write, hs]
  rw [hup, clearFold_out, hdn]
  simp [List.append_assoc]

/-- The `lines_below_cursor` field is zero after every clear. -/
theorem clear_below_cursor_lbc (q : Printer) :
    (q.clear_below_cursor).lines_below_cursor = 0 := by
  unfold Printer.clear_below_cursor
  split
  · next hq => exact hq
  · rfl

/-- C9: `lines_below_cursor` always matches the overlay actually painted —
`print_lines_below_cursor` sets it to the number of lines written in the
same operation (zero when the list is empty), and `clear_below_cursor` is
a no-op at zero and otherwise writes exactly `lines_below_cursor`
erase-line codes before resetting the field to zero. -/
theorem c9_overlay_count (p : Printer) (lines : List String) (hl : Option Nat) :
    (p.print_lines_below_cursor lines hl).lines_below_cursor = lines.length
    ∧ (p.clear_below_cursor).lines_below_cursor = 0
    ∧ (p.lines_below_cursor = 0 → p.clear_below_cursor = p)
    ∧ countCode "\x1b[2K" ((p.clear_below_cursor).out.drop p.out.length)
        = p.lines_below_cursor := by
  have hnoop : p.lines_below_cursor = 0 → p.clear_below_cursor = p := by
    intro h0
    unfold Printer.clear_below_cursor
    rw [if_pos h0]
  refine ⟨?_, clear_below_cursor_lbc p, hnoop, ?_⟩
  · unfold Printer.print_lines_below_cursor
    split
    · next hl0 =>
        rw [hl0]
        exact clear_below_cursor_lbc p
    · rfl
  · by_cases h0 : p.lines_below_cursor = 0
    · rw [hnoop h0, List.drop_length, h0]
      rfl
    · rw [clear_below_cursor_out p h0, List.drop_left]
      show countCode "\x1b[2K" (["\x1b[B"] ++ (_ ++ _)) = _
      rw [countCode_append, countCode_append, countCode_clear_chunks, up_chunk_count]
      have hB : countCode "\x1b[2K" ["\x1b[B"] = 0 := by decide
      omega

/-- Witness for C9: a printer with two overlay lines painted and one with
none. -/
theorem c9_overlay_count_witness :
    ((Printer.mk [] 0 0).print_lines_below_cursor ["a", "b"] (some 1)).lines_below_cursor = 2
    ∧ ((Printer.mk ["x"] 5 2).clear_below_cursor).lines_below_cursor = 0
    ∧ (Printer.mk [] 0 0).clear_below_cursor = Printer.mk [] 0 0
    ∧ countCode "\x1b[2K" (((Printer.mk ["x"] 5 2).clear_below_cursor).out.drop
        (Printer.mk ["x"] 5 2).out.length) = 2 :=
  ⟨(c9_overlay_count (Printer.mk [] 0 0) ["a", "b"] (some 1)).1,
   (c9_overlay_count (Printer.mk ["x"] 5 2) ["a", "b"] (some 1)).2.1,
   (c9_overlay_count (Printer.mk [] 0 0) ["a", "b"] (some 1)).2.2.1 rfl,
   (c9_overlay_count (Printer.mk ["x"] 5 2) ["a", "b"] (some 1)).2.2.2⟩

end Xcli